import Mathlib

/-!
# webworm: the bookmark table script (`gui/src/main.js`)

A shallow embedding of the presentation script of the webworm episode
tracker.  The script keeps no data of its own: it renders the rows of
`#bookmark-table`, forwards the user's clicks to the backend through
`invoke`, and re-renders a row from the backend's answer.

Modelling choices, each stated where it is made:

* the table is the list of its rows; a row object is told apart from the
  others by a key handed out when the row is created;
* a click listener is the data of the closure the script registered
  (which listener it is, and the variables it captured);
* `invoke` appends to a log of backend calls and the answer arrives later,
  as a separate transition that runs the continuation attached to the
  promise;
* a JSON text is represented by the value it denotes.
-/

namespace Webworm

/-! ## JavaScript values -/

/-- JavaScript numbers as far as the script meets them: `NaN`, the two
infinities and the integer-valued doubles.  Negative zero is identified
with zero (`JSON.stringify` prints both as `0`). -/
inductive JSNum where
  | nan
  | inf (neg : Bool)
  | int (i : Int)
  deriving DecidableEq, Repr

/-- JavaScript values read from a form, from a parsed JSON object or from a
property that is absent.  A string is `str` when it is well-formed
UTF-16, and otherwise `units`, the list of its UTF-16 code units (such a
string holds half of a surrogate pair; `substring` can cut one out).
`object` stands for any array or object nested inside a parsed JSON
object; the script never looks inside one. -/
inductive JSVal where
  | undefined
  | null
  | bool (b : Bool)
  | num (n : JSNum)
  | str (s : String)
  | units (u : List Nat)
  | object
  deriving DecidableEq, Repr

/-- What is thrown or what a promise is rejected with: a value handed over
by the backend, or one of the two built-in errors the script can raise. -/
inductive Thrown where
  | value (v : JSVal)
  | syntaxError
  | typeError
  deriving DecidableEq, Repr

/-- ECMAScript `ToBoolean`, as used by `if (this.has_new)`. -/
def truthy : JSVal → Bool
  | .undefined => false
  | .null => false
  | .bool b => b
  | .num .nan => false
  | .num (.inf _) => true
  | .num (.int i) => i != 0
  | .str s => s != ""
  | .units u => !u.isEmpty
  | .object => true

/-- The UTF-16 code units of a character: one unit in the Basic
Multilingual Plane, a surrogate pair beyond it. -/
def utf16 (c : Char) : List Nat :=
  if c.toNat < 0x10000 then [c.toNat]
  else [0xD800 + (c.toNat - 0x10000) / 0x400, 0xDC00 + (c.toNat - 0x10000) % 0x400]

/-- The UTF-16 code units of a string, which is what JavaScript indexes. -/
def toUnits (s : String) : List Nat :=
  s.data.flatMap utf16

/-- The characters of a well-formed sequence of UTF-16 code units; `none`
when a surrogate has no partner. -/
def decodeUnits : List Nat → Option (List Char)
  | [] => some []
  | u :: rest =>
    if u < 0xD800 ∨ 0xE000 ≤ u then (decodeUnits rest).map (fun cs => Char.ofNat u :: cs)
    else if u < 0xDC00 then
      match rest with
      | [] => none
      | lo :: rest1 =>
        if 0xDC00 ≤ lo ∧ lo < 0xE000 then
          (decodeUnits rest1).map
            (fun cs => Char.ofNat (0x10000 + (u - 0xD800) * 0x400 + (lo - 0xDC00)) :: cs)
        else none
    else none

/-- The string value with the given code units. -/
def JSVal.ofUnits (u : List Nat) : JSVal :=
  match decodeUnits u with
  | some cs => .str (String.mk cs)
  | none => .units u

/-- `String.prototype.substring(start, end)` with `start ≤ end`, on code
units: both bounds are clamped to the length. -/
def substring (u : List Nat) (start stop : Nat) : List Nat :=
  (u.drop start).take (stop - start)

/-- The call `this.url.substring(12,70)`: only a string has the method,
every other value raises a `TypeError`. -/
def JSVal.substring (v : JSVal) (start stop : Nat) : Except Thrown JSVal :=
  match v with
  | .str s => .ok (JSVal.ofUnits (Webworm.substring (toUnits s) start stop))
  | .units u => .ok (JSVal.ofUnits (Webworm.substring u start stop))
  | _ => .error .typeError

/-! ## `parseInt` -/

/-- White space and line terminators skipped by `parseInt` (ECMAScript
`TrimString`). -/
def isJSWhiteSpace (c : Char) : Bool :=
  let n := c.toNat
  n == 0x09 || n == 0x0A || n == 0x0B || n == 0x0C || n == 0x0D || n == 0x20 ||
  n == 0xA0 || n == 0x1680 || (0x2000 ≤ n && n ≤ 0x200A) || n == 0x2028 ||
  n == 0x2029 || n == 0x202F || n == 0x205F || n == 0x3000 || n == 0xFEFF

/-- The value of a character as a digit of the given radix (10 or 16). -/
def digitValue (radix : Nat) (c : Char) : Option Nat :=
  let n := c.toNat
  if 48 ≤ n ∧ n ≤ 57 then some (n - 48)
  else if radix = 16 ∧ 97 ≤ n ∧ n ≤ 102 then some (n - 87)
  else if radix = 16 ∧ 65 ≤ n ∧ n ≤ 70 then some (n - 55)
  else none

/-- The number denoted by a run of digits, most significant first. -/
def digitsToNat (radix : Nat) (ds : List Char) : Nat :=
  ds.foldl (fun acc c => acc * radix + (digitValue radix c).getD 0) 0

/-- The double nearest to a natural number (ties to even), `none` when it
lies beyond the largest finite double. -/
def roundToDouble (n : Nat) : Option Nat :=
  if n < 2 ^ 53 then some n
  else
    let k := Nat.log2 n + 1 - 53
    let q := n / 2 ^ k
    let r := n % 2 ^ k
    let half := 2 ^ (k - 1)
    let q1 := if half < r ∨ (r = half ∧ q % 2 = 1) then q + 1 else q
    let v := q1 * 2 ^ k
    if v < 2 ^ 1024 then some v else none

/-- The JavaScript number an integer becomes: the nearest double, an
infinity beyond the finite doubles.  Integers of magnitude below `2 ^ 53`
are kept exactly. -/
def JSNum.ofInt (i : Int) : JSNum :=
  match roundToDouble i.natAbs with
  | some v => .int (if i < 0 then - (v : Int) else (v : Int))
  | none => .inf (decide (i < 0))

/-- Steps 3 and 4 of `parseInt`: a leading `-` makes the sign negative, a
leading `+` or `-` is removed. -/
def readSign : List Char → Bool × List Char
  | '-' :: r => (true, r)
  | '+' :: r => (false, r)
  | cs => (false, cs)

/-- Step 7 of `parseInt` with no radix argument: a leading `0x` or `0X` is
removed and selects radix 16, otherwise the radix is 10. -/
def readRadix : List Char → Nat × List Char
  | '0' :: 'x' :: r => (16, r)
  | '0' :: 'X' :: r => (16, r)
  | cs => (10, cs)

/-- ECMAScript `parseInt(string)` with no radix argument: skip leading white
space, read an optional sign, an optional `0x`/`0X`, then the longest run
of digits; no digit at all gives `NaN`. -/
def parseInt (s : String) : JSNum :=
  let signed := readSign (s.data.dropWhile isJSWhiteSpace)
  let based := readRadix signed.2
  let z := based.2.takeWhile (fun c => (digitValue based.1 c).isSome)
  if z = [] then .nan
  else
    match roundToDouble (digitsToNat based.1 z) with
    | some v => .int (if signed.1 then - (v : Int) else (v : Int))
    | none => .inf signed.1

/-! ## JSON -/

/-- A JSON value that is a member of an object.  `units` is a string that
is not well-formed UTF-16 (written with an escape for the surrogate that
has no partner), given by its code units; `nested` stands for an array or
an object in member position. -/
inductive Json where
  | null
  | bool (b : Bool)
  | num (i : Int)
  | str (s : String)
  | units (u : List Nat)
  | nested
  deriving DecidableEq, Repr

/-- A JSON text, represented by the value it denotes rather than by its
characters.  `malformed` is any string that is not JSON; of an array only
the fact that it is one matters to the script. -/
inductive JsonText where
  | malformed
  | scalar (j : Json)
  | array
  | object (members : List (String × Json))
  deriving DecidableEq, Repr

/-- The JavaScript value `JSON.parse` makes of a JSON value; a number
becomes the nearest double. -/
def Json.toJS : Json → JSVal
  | .null => .null
  | .bool b => .bool b
  | .num i => .num (JSNum.ofInt i)
  | .str s => .str s
  | .units u => .units u
  | .nested => .object

/-- The result of `JSON.parse`, as far as property reads can tell. -/
inductive JSObj where
  | null
  | plain
  | record (members : List (String × JSVal))
  deriving DecidableEq, Repr

/-- `JSON.parse(text)`: a `SyntaxError` on a malformed text.  `plain` covers
the values on which every property the script reads is `undefined`. -/
def JSON_parse : JsonText → Except Thrown JSObj
  | .malformed => .error .syntaxError
  | .scalar .null => .ok .null
  | .scalar _ => .ok .plain
  | .array => .ok .plain
  | .object ms => .ok (.record (ms.map (fun m => (m.1, m.2.toJS))))

/-- The property read `obj.key`: a `TypeError` on `null`, `undefined` for an
absent member, and the last one of several members of the same name. -/
def JSObj.get (obj : JSObj) (key : String) : Except Thrown JSVal :=
  match obj with
  | .null => .error .typeError
  | .plain => .ok .undefined
  | .record ms => .ok ((ms.reverse.lookup key).getD .undefined)

/-- `JSON.stringify` of a property value: `undefined` drops the member,
`NaN` and the infinities are written `null`. -/
def stringifyMember (key : String) (v : JSVal) : List (String × Json) :=
  match v with
  | .undefined => []
  | .null => [(key, .null)]
  | .bool b => [(key, .bool b)]
  | .num (.int i) => [(key, .num i)]
  | .num _ => [(key, .null)]
  | .str s => [(key, .str s)]
  | .units u => [(key, .units u)]
  | .object => [(key, .nested)]

/-! ## The document -/

/-- A click listener registered by `build_entry`: the closure, given by the
code it runs and the values it captured (`this.name` or `this.url` of the
bookmark, which is never assigned after construction, and the key of
`row`). -/
inductive Listener where
  | decr (name : JSVal) (row : Nat)
  | incr (name : JSVal) (row : Nat)
  | copy (url : JSVal)
  | remove (name : JSVal) (row : Nat)
  deriving DecidableEq, Repr

/-- A `button` element: its label and its click listener. -/
structure Button where
  textContent : String
  onClick : Listener
  deriving DecidableEq, Repr

/-- A table cell: the value last assigned to `innerText` (the empty string
for a new cell) and the buttons appended to it. -/
structure Cell where
  innerText : JSVal
  children : List Button
  deriving DecidableEq, Repr

/-- A table row.  `key` is the identity of the row object. -/
structure Row where
  key : Nat
  className : String
  id : String
  cells : List Cell
  deriving DecidableEq, Repr

/-- The cell made by `row.insertCell`. -/
def Cell.new : Cell := ⟨.str "", []⟩

/-- The row made by `table.insertRow`. -/
def Row.new (key : Nat) : Row := ⟨key, "", "", []⟩

/-- The call `row.deleteCell(index)`. -/
def Row.deleteCell (row : Row) (index : Nat) : Row :=
  { row with cells := row.cells.eraseIdx index }

/-- The call `row.insertCell(index)`; the script only calls it with an index
that is at most the number of cells. -/
def Row.insertCell (row : Row) (index : Nat) : Row :=
  { row with cells := row.cells.insertIdx index Cell.new }

/-- The assignment `c.innerText = v` on the cell at `index`: the text
replaces whatever the cell held. -/
def Row.setInnerText (row : Row) (index : Nat) (v : JSVal) : Row :=
  { row with cells := row.cells.modify (fun _ => ⟨v, []⟩) index }

/-- The call `c.appendChild(button)` on the cell at `index`. -/
def Row.appendChild (row : Row) (index : Nat) (b : Button) : Row :=
  { row with cells := row.cells.modify (fun c => { c with children := c.children ++ [b] }) index }

/-! ## The backend bridge -/

/-- The argument object of an `invoke` call. -/
inductive Args where
  | none
  | name (name : JSVal)
  | entry (entry : JsonText)
  deriving DecidableEq, Repr

/-- What the script attached to the promise returned by `invoke`: nothing
(`remove`), the `then`/`catch` pair of `create_entry`, the `then` of
`fetch_bookmarks`, or the `then` of a `+1`/`-1` listener, which captured
its row. -/
inductive Cont where
  | none
  | insert
  | fetch
  | rerender (row : Nat)
  deriving DecidableEq, Repr

/-- One `invoke(cmd, args)` call together with its continuation. -/
structure Call where
  cmd : String
  args : Args
  cont : Cont
  deriving DecidableEq, Repr

/-- How a promise settles. -/
inductive Outcome (α : Type) where
  | resolve (result : α)
  | reject (error : JSVal)
  deriving Repr

/-- Everything the script can change: the rows of `#bookmark-table`, the
next fresh row key, and, oldest first, the backend calls issued, the
alerts shown and the texts written to the clipboard. -/
structure State where
  table : List Row
  nextKey : Nat
  calls : List Call
  alerts : List Thrown
  clipboard : List JSVal
  deriving DecidableEq, Repr

/-- The three inputs read by `create_entry`: the `value` of `#create-name`,
`#create-url` and `#create-episode`. -/
structure Form where
  name : String
  url : String
  episode : String
  deriving DecidableEq, Repr

/-- The call `invoke(cmd, args)` with the continuation `k` put on its
promise. -/
def invoke (cmd : String) (args : Args) (k : Cont) (s : State) : State :=
  { s with calls := s.calls ++ [⟨cmd, args, k⟩] }

/-- The call `alert(error)`. -/
def alert (error : Thrown) (s : State) : State :=
  { s with alerts := s.alerts ++ [error] }

/-- The call `writeText(text)`. -/
def writeText (text : JSVal) (s : State) : State :=
  { s with clipboard := s.clipboard ++ [text] }

/-- The function `increment(name)`. -/
def increment (name : JSVal) (k : Cont) (s : State) : State :=
  invoke "advance" (.name name) k s

/-- The function `decrement(name)`. -/
def decrement (name : JSVal) (k : Cont) (s : State) : State :=
  invoke "previous" (.name name) k s

/-! ## `class Bookmark` -/

/-- An instance of the script's class `Bookmark`; the constructor stores its
four arguments unchecked. -/
structure Bookmark where
  name : JSVal
  url : JSVal
  episode : JSVal
  has_new : JSVal
  deriving DecidableEq, Repr

/-- `JSON.stringify(bookmark)`: the own properties in the order the
constructor assigned them. -/
def JSON_stringify (b : Bookmark) : JsonText :=
  .object (stringifyMember "name" b.name ++ stringifyMember "url" b.url ++
    stringifyMember "episode" b.episode ++ stringifyMember "has_new" b.has_new)

/-- The two lines `const obj = JSON.parse(entry); const bookmark = new
Bookmark(obj.name, obj.url, obj.episode, obj.has_new)`. -/
def Bookmark.ofText (entry : JsonText) : Except Thrown Bookmark := do
  let obj ← JSON_parse entry
  let name ← obj.get "name"
  let url ← obj.get "url"
  let episode ← obj.get "episode"
  let has_new ← obj.get "has_new"
  return ⟨name, url, episode, has_new⟩

/-- The method `build_entry(row)`.  The result is the row as the method
leaves it and the exception it ends with, if any: `this.url.substring`
raises a `TypeError` when `url` is not a string, after the five cells have
been inserted and before any button is attached. -/
def Bookmark.build_entry (this : Bookmark) (row : Row) : Row × Option Thrown :=
  let row := { row with className := "bookmark_row" }
  let row := { row with id := if truthy this.has_new then "has_new" else "" }
  let row :=
    if row.cells.length = 5 then
      ((((row.deleteCell 0).deleteCell 0).deleteCell 0).deleteCell 0).deleteCell 0
    else row
  let row := ((((row.insertCell 0).insertCell 1).insertCell 2).insertCell 3).insertCell 4
  let row := row.setInnerText 1 this.name
  let row := row.setInnerText 2 this.episode
  match this.url.substring 12 70 with
  | .error e => (row, some e)
  | .ok text =>
    let row := row.setInnerText 3 text
    let decr : Button := ⟨"-1", .decr this.name row.key⟩
    let incr : Button := ⟨"+1", .incr this.name row.key⟩
    let copy : Button := ⟨"copy", .copy this.url⟩
    let remove : Button := ⟨"x", .remove this.name row.key⟩
    let row := row.appendChild 4 remove
    let row := row.appendChild 0 decr
    let row := row.appendChild 0 incr
    let row := row.appendChild 0 copy
    (row, none)

/-- The call `bookmark.build_entry(row)` on the row object with the given
key, wherever it is in the table; a row that was taken out of the table is
not displayed and is not tracked. -/
def renderRow (b : Bookmark) (key : Nat) (table : List Row) : List Row :=
  table.map (fun r => if r.key = key then (b.build_entry r).1 else r)

/-- The two lines `let row = table.insertRow(-1); bookmark.build_entry(row)`:
a new row is appended and built. -/
def appendEntry (b : Bookmark) (s : State) : State × Option Thrown :=
  let built := b.build_entry (Row.new s.nextKey)
  ({ s with table := s.table ++ [built.1], nextKey := s.nextKey + 1 }, built.2)

/-! ## Creating a bookmark -/

/-- The function `create_entry()`, up to the `invoke` call: nothing happens
while one of the three inputs is empty; otherwise the unchecked bookmark is
sent to `insert`. -/
def create_entry (form : Form) (s : State) : State :=
  if form.name = "" then s
  else if form.url = "" then s
  else if form.episode = "" then s
  else
    let bookmark_unchecked : Bookmark :=
      ⟨.str form.name, .str form.url, .num (parseInt form.episode), .bool false⟩
    invoke "insert" (.entry (JSON_stringify bookmark_unchecked)) .insert s

/-- The `then` callback of `create_entry`: the state it leaves and the
exception it ends with, if any. -/
def create_entry_then (result : JsonText) (s : State) : State × Option Thrown :=
  match Bookmark.ofText result with
  | .error e => (s, some e)
  | .ok bookmark => appendEntry bookmark s

/-- The `catch` callback of `create_entry`. -/
def create_entry_catch (error : Thrown) (s : State) : State :=
  alert error s

/-- The promise chain `invoke("insert", ..).then(..).catch(..)` once the
backend has answered: `catch` receives a rejection of the call as well as
an exception raised inside `then`. -/
def create_entry_settle (o : Outcome JsonText) (s : State) : State :=
  match o with
  | .reject error => create_entry_catch (.value error) s
  | .resolve result =>
    match create_entry_then result s with
    | (s1, none) => s1
    | (s1, some e) => create_entry_catch e s1

/-! ## Listing the bookmarks -/

/-- The function `fetch_bookmarks()`, up to the `invoke` call. -/
def fetch_bookmarks (s : State) : State :=
  invoke "fetch_bookmarks" .none .fetch s

/-- The loop `for (var i = 1; i < rowCount; i++) table.deleteRow(1)`. -/
def deleteDataRows (table : List Row) : List Row :=
  (fun t => t.eraseIdx 1)^[table.length - 1] table

/-- The call `strings.forEach(..)` of `fetch_bookmarks`: each item is
parsed, appended and built in turn; an exception ends the loop and leaves
the rows built so far. -/
def appendEntries : List JsonText → State → State × Option Thrown
  | [], s => (s, none)
  | item :: rest, s =>
    match Bookmark.ofText item with
    | .error e => (s, some e)
    | .ok bookmark =>
      match appendEntry bookmark s with
      | (s1, none) => appendEntries rest s1
      | (s1, some e) => (s1, some e)

/-- The `then` callback of `fetch_bookmarks`. -/
def fetch_bookmarks_then (strings : List JsonText) (s : State) : State × Option Thrown :=
  appendEntries strings { s with table := deleteDataRows s.table }

/-- The promise chain of `fetch_bookmarks` once the backend has answered:
no `catch` is attached, so a rejection or an exception changes nothing
more. -/
def fetch_bookmarks_settle (o : Outcome (List JsonText)) (s : State) : State :=
  match o with
  | .reject _ => s
  | .resolve strings => (fetch_bookmarks_then strings s).1

/-! ## The row buttons -/

/-- The `then` callback of the `+1` and `-1` listeners: the captured row is
built again from the answer.  An exception raised on the way has no
handler; the row stays as `build_entry` left it. -/
def rerender_then (row : Nat) (entry : JsonText) (s : State) : State :=
  match Bookmark.ofText entry with
  | .error _ => s
  | .ok bookmark => { s with table := renderRow bookmark row s.table }

/-- The promise chain of a `+1` or `-1` listener once the backend has
answered; no `catch` is attached. -/
def rerender_settle (row : Nat) (o : Outcome JsonText) (s : State) : State :=
  match o with
  | .reject _ => s
  | .resolve entry => rerender_then row entry s

/-- The promise of the `remove` call once the backend has answered: the
listener dropped it, nothing runs. -/
def remove_settle (_o : Outcome Unit) (s : State) : State := s

/-- The call `row.parentNode.removeChild(row)`. -/
def removeChild (row : Nat) (table : List Row) : List Row :=
  table.filter (fun r => r.key != row)

/-- A click on a button: its listener runs. -/
def click (l : Listener) (s : State) : State :=
  match l with
  | .decr name row => decrement name (.rerender row) s
  | .incr name row => increment name (.rerender row) s
  | .copy url => writeText url s
  | .remove name row =>
    let s1 := invoke "remove" (.name name) .none s
    { s1 with table := removeChild row s1.table }

/-! ## The script as a transition system -/

/-- The page when the script starts: the table holds its header row, which
comes from the markup and carries no listener of the script. -/
def State.init (headings : List String) : State :=
  { table := [⟨0, "", "", headings.map (fun h => ⟨.str h, []⟩)⟩],
    nextKey := 1, calls := [], alerts := [], clipboard := [] }

/-- One event: the page load or a click on `#refresh` (`load`), a click on
`#create-button` with the form as it then is (`create`), a click on a
button of a displayed row (`press`), or the answer to a call that was
issued, delivered to the continuation of that call. -/
inductive Step : State → State → Prop where
  | load (s : State) : Step s (fetch_bookmarks s)
  | create (form : Form) (s : State) : Step s (create_entry form s)
  | press (s : State) (r : Row) (c : Cell) (b : Button) :
      r ∈ s.table → c ∈ r.cells → b ∈ c.children → Step s (click b.onClick s)
  | fetched (s : State) (call : Call) (o : Outcome (List JsonText)) :
      call ∈ s.calls → call.cont = .fetch → Step s (fetch_bookmarks_settle o s)
  | inserted (s : State) (call : Call) (o : Outcome JsonText) :
      call ∈ s.calls → call.cont = .insert → Step s (create_entry_settle o s)
  | rerendered (s : State) (call : Call) (row : Nat) (o : Outcome JsonText) :
      call ∈ s.calls → call.cont = .rerender row → Step s (rerender_settle row o s)
  | removed (s : State) (call : Call) (o : Outcome Unit) :
      call ∈ s.calls → call.cont = .none → Step s (remove_settle o s)

/-- The states the page can be in, from the header-only table on. -/
inductive Reachable (headings : List String) : State → Prop where
  | init : Reachable headings (State.init headings)
  | step {s t : State} : Reachable headings s → Step s t → Reachable headings t

/-! ## What a built row looks like -/

/-- The five cells `build_entry` creates for the row with the given key:
buttons `-1`, `+1`, `copy`; the name; the episode; the shortened url; the
button `x`.  The last three steps are missing when `url` is no string. -/
def Bookmark.freshCells (b : Bookmark) (key : Nat) : List Cell :=
  match b.url.substring 12 70 with
  | .ok text =>
    [⟨.str "", [⟨"-1", .decr b.name key⟩, ⟨"+1", .incr b.name key⟩, ⟨"copy", .copy b.url⟩]⟩,
     ⟨b.name, []⟩, ⟨b.episode, []⟩, ⟨text, []⟩,
     ⟨.str "", [⟨"x", .remove b.name key⟩]⟩]
  | .error _ => [Cell.new, ⟨b.name, []⟩, ⟨b.episode, []⟩, Cell.new, Cell.new]

/-- What a row shows, its identity and its listeners left out: class, id,
and for each cell its text and the labels of its buttons. -/
def Row.display (row : Row) : String × String × List (JSVal × List String) :=
  (row.className, row.id, row.cells.map (fun c => (c.innerText, c.children.map Button.textContent)))

/-- The row with the given key, if it is displayed. -/
def findRow (key : Nat) (table : List Row) : Option Row :=
  table.find? (fun r => r.key == key)

/-- The first button of a row that carries the given label. -/
def Row.button (row : Row) (label : String) : Option Button :=
  (row.cells.map Cell.children).flatten.find? (fun b => b.textContent == label)

/-! ## The invariant of the table -/

/-- The row a listener captured, if it captured one. -/
def Listener.row : Listener → Option Nat
  | .decr _ row => some row
  | .incr _ row => some row
  | .copy _ => none
  | .remove _ row => some row

/-- A well-formed data row: five cells, not the header row object, and no
listener in it that captured the header row. -/
def Row.WellFormed (r : Row) : Prop :=
  r.cells.length = 5 ∧ r.key ≠ 0 ∧
    ∀ c ∈ r.cells, ∀ b ∈ c.children, b.onClick.row ≠ some 0

/-- The invariant of the reachable states: the table starts with the header
row, which carries no button; every other row is well formed; row keys
still to be handed out are not the header key; and no pending continuation
captured the header row. -/
def State.Invariant (s : State) : Prop :=
  ∃ hdr rest, s.table = hdr :: rest ∧ hdr.key = 0 ∧ (∀ c ∈ hdr.cells, c.children = []) ∧
    0 < s.nextKey ∧ (∀ r ∈ rest, r.WellFormed) ∧ ∀ call ∈ s.calls, call.cont ≠ .rerender 0

/-! ## The backend the script talks to -/

/-- Modelled from the spec: the Bookmark record kept by the backend Store,
which is not among the sources (name, url, integer episode counter,
has_new flag). -/
structure Record where
  name : String
  url : String
  episode : Int
  has_new : Bool
  deriving DecidableEq, Repr

/-- Modelled from the spec: the Bookmark JSON shape of the call protocol,
an object with the members name, url, episode and has_new. -/
def Record.toJson (r : Record) : JsonText :=
  .object [("name", .str r.name), ("url", .str r.url), ("episode", .num r.episode),
    ("has_new", .bool r.has_new)]

/-- The script's bookmark object for a record of the backend, as the two
lines `JSON.parse` and `new Bookmark` make it from the record's JSON text:
the episode is the double nearest to the stored integer. -/
def Record.toBookmark (r : Record) : Bookmark :=
  ⟨.str r.name, .str r.url, .num (JSNum.ofInt r.episode), .bool r.has_new⟩

/-- Modelled from the spec: the Store operation mutate_episode(name, +1)
behind the backend command advance, which is not among the sources.  The
record of that name gets its episode raised by one and has_new set, and is
returned; no record of that name is the failure NotFound. -/
def Backend.advance : List Record → String → Option (List Record × Record)
  | [], _ => none
  | r :: rest, name =>
    if r.name = name then
      let updated : Record := { r with episode := r.episode + 1, has_new := true }
      some (updated :: rest, updated)
    else
      match Backend.advance rest name with
      | some (rest1, updated) => some (r :: rest1, updated)
      | none => none

/-- Modelled from the spec: the backend serving an advance call, which is
not among the sources.  The answer is the JSON-encoded updated record, or
an error value with a message. -/
def Backend.answerAdvance (args : Args) (store : List Record) :
    List Record × Outcome JsonText :=
  match args with
  | .name (.str name) =>
    match Backend.advance store name with
    | some (store1, updated) => (store1, .resolve updated.toJson)
    | none => (store, .reject (.str "NotFound"))
  | _ => (store, .reject (.str "InvalidInput"))

/-- The rows a listing is displayed as: one row per record, in order, built
on new rows whose keys count up from `key`. -/
def renderedRows : List Record → Nat → List Row
  | [], _ => []
  | r :: rest, key => (r.toBookmark.build_entry (Row.new key)).1 :: renderedRows rest (key + 1)

/-- The record after `k` advances: the episode raised by `k`, `has_new` set
once `k` is positive. -/
def Record.advanced (r : Record) (k : Nat) : Record :=
  ⟨r.name, r.url, r.episode + k, r.has_new || decide (0 < k)⟩

/-- The page together with the backend behind it: the page, the store of
the backend, and the answers the backend has produced so far, oldest
first, each with the row captured by the continuation it is for. -/
structure System where
  page : State
  store : List Record
  answers : List (Nat × Outcome JsonText)

/-- What happens around one row: a click on its `+1` button, or the
delivery to the page of the `i`-th answer of the backend (counted from
0).  Clicks and deliveries may come in any order; a schedule may even
deliver an answer more than once, which a page never sees, so that what
holds for every schedule holds for every run of the page. -/
inductive Event where
  | plusOne
  | deliver (i : Nat)
  deriving DecidableEq, Repr

/-- One event on the displayed row with the given key.  A click runs the
listener of the `+1` button; the backend serves the `advance` call it
issued and keeps the answer.  A delivery runs the continuation of the call
on the answer; an answer the backend has not produced cannot be
delivered. -/
def System.step (key : Nat) (sys : System) : Event → System
  | .plusOne =>
    match (findRow key sys.page.table).bind (fun r => r.button "+1") with
    | none => sys
    | some b =>
      let s1 := click b.onClick sys.page
      match s1.calls.getLast? with
      | none => { sys with page := s1 }
      | some call =>
        match call.cont with
        | .rerender row =>
          if call.cmd = "advance" then
            let answer := Backend.answerAdvance call.args sys.store
            { page := s1, store := answer.1, answers := sys.answers ++ [(row, answer.2)] }
          else { sys with page := s1 }
        | _ => { sys with page := s1 }
  | .deliver i =>
    match sys.answers[i]? with
    | none => sys
    | some answer => { sys with page := rerender_settle answer.1 answer.2 sys.page }

/-- A schedule of events, run from left to right. -/
def System.run (key : Nat) (events : List Event) (sys : System) : System :=
  events.foldl (System.step key) sys

/-- What a schedule amounts to, as a pair updated event by event: the
number of clicks so far, and which answer was delivered last (`k` for the
answer to the `k`-th click, counted from 1; `0` while none was
delivered). -/
def Event.track (acc : Nat × Nat) : Event → Nat × Nat
  | .plusOne => (acc.1 + 1, acc.2)
  | .deliver i => if i < acc.1 then (acc.1, i + 1) else acc

/-- The number of clicks in a schedule and the answer delivered last. -/
def Event.summary (events : List Event) : Nat × Nat :=
  events.foldl Event.track (0, 0)

/-! ## Lemmas on `build_entry` -/

theorem freshCells_length (b : Bookmark) (key : Nat) : (b.freshCells key).length = 5 := by
  unfold Bookmark.freshCells
  split <;> rfl

/-- The row `build_entry` leaves: the five new cells in front of whatever
cells the row kept. -/
theorem build_entry_fst (b : Bookmark) (row : Row) :
    (b.build_entry row).1 =
      { key := row.key, className := "bookmark_row",
        id := if truthy b.has_new then "has_new" else "",
        cells := b.freshCells row.key ++ (if row.cells.length = 5 then [] else row.cells) } := by
  obtain ⟨key, cn, id, cells⟩ := row
  by_cases h : cells.length = 5
  · match cells, h with
    | [c0, c1, c2, c3, c4], _ =>
      cases hu : b.url.substring 12 70 <;>
        simp [Bookmark.build_entry, Bookmark.freshCells, hu, Row.deleteCell,
          Row.insertCell, Row.setInnerText, Row.appendChild, Cell.new, List.insertIdx, List.modify]
  · cases hu : b.url.substring 12 70 <;>
      simp [Bookmark.build_entry, Bookmark.freshCells, hu, Row.deleteCell,
        Row.insertCell, Row.setInnerText, Row.appendChild, Cell.new, List.insertIdx, List.modify, h]

theorem build_entry_snd (b : Bookmark) (row : Row) :
    (b.build_entry row).2 =
      (match b.url.substring 12 70 with | .ok _ => none | .error e => some e) := by
  cases hu : b.url.substring 12 70 <;> simp [Bookmark.build_entry, hu]

theorem build_entry_of_rendered (b : Bookmark) (row : Row)
    (h : row.cells.length = 0 ∨ row.cells.length = 5) :
    (b.build_entry row).1 =
      { key := row.key, className := "bookmark_row",
        id := if truthy b.has_new then "has_new" else "",
        cells := b.freshCells row.key } := by
  rw [build_entry_fst]
  rcases h with h | h
  · have : row.cells = [] := List.length_eq_zero.mp h
    simp [this]
  · simp [h]

theorem ofText_toJson (r : Record) : Bookmark.ofText r.toJson = .ok r.toBookmark := by
  simp [Bookmark.ofText, Record.toJson, JSON_parse, JSObj.get, Record.toBookmark, Json.toJS,
    bind, Except.bind, pure, Except.pure, List.lookup]

/-! ## Creating a bookmark: the guards -/

/-- C1: when at least one of the three inputs create-name, create-url,
create-episode holds the empty string, `create_entry` issues no call (so no
`insert`), shows no alert and leaves the table as it is; indeed it changes
nothing at all. -/
theorem create_entry_empty_field (form : Form) (s : State)
    (h : form.name = "" ∨ form.url = "" ∨ form.episode = "") :
    (create_entry form s).calls = s.calls ∧ (create_entry form s).alerts = s.alerts ∧
      (create_entry form s).table = s.table ∧ create_entry form s = s := by
  have : create_entry form s = s := by
    unfold create_entry
    rcases h with h | h | h <;> simp [h]
  simp [this]

theorem create_entry_empty_field_witness :
    (create_entry ⟨"One Piece", "", "7"⟩ (State.init ["", "name"])).calls = [] :=
  (create_entry_empty_field ⟨"One Piece", "", "7"⟩ (State.init ["", "name"])
    (Or.inr (Or.inl rfl))).1

/-! ## Lemmas on `parseInt` -/

theorem isDigit_toNat (c : Char) (h : c.isDigit = true) : 48 ≤ c.toNat ∧ c.toNat ≤ 57 := by
  simp [Char.isDigit, UInt32.le_def, BitVec.le_def] at h
  simp [Char.toNat, UInt32.toNat]
  exact h

theorem digit_not_space (c : Char) (h : c.isDigit = true) : isJSWhiteSpace c = false := by
  have := isDigit_toNat c h
  simp [isJSWhiteSpace]
  omega

theorem digitValue_of_isDigit (c : Char) (h : c.isDigit = true) :
    digitValue 10 c = some (c.toNat - 48) := by
  have := isDigit_toNat c h
  simp [digitValue, this]

theorem foldl_digits_lt (cs : List Char) (h : ∀ c ∈ cs, c.isDigit = true) (acc : Nat) :
    cs.foldl (fun acc c => acc * 10 + (digitValue 10 c).getD 0) acc < (acc + 1) * 10 ^ cs.length := by
  induction cs generalizing acc with
  | nil => simp
  | cons c r ih =>
    have hc := isDigit_toNat c (h c (by simp))
    have hr := ih (fun d hd => h d (by simp [hd])) (acc * 10 + (digitValue 10 c).getD 0)
    rw [digitValue_of_isDigit c (h c (by simp))] at hr
    simp only [List.foldl_cons, List.length_cons, digitValue_of_isDigit c (h c (by simp)), Option.getD_some]
    calc _ < (acc * 10 + (c.toNat - 48) + 1) * 10 ^ r.length := hr
      _ ≤ ((acc + 1) * 10) * 10 ^ r.length := by
          apply Nat.mul_le_mul_right
          omega
      _ = (acc + 1) * 10 ^ (r.length + 1) := by ring

theorem readSign_digit (c : Char) (r : List Char) (h : c.isDigit = true) :
    readSign (c :: r) = (false, c :: r) := by
  have hc := isDigit_toNat c h
  unfold readSign
  split
  · next heq =>
    have : c = '-' := by injection heq
    subst this
    simp at hc
  · next heq =>
    have : c = '+' := by injection heq
    subst this
    simp at hc
  · rfl

theorem readRadix_digits (cs : List Char) (h : ∀ c ∈ cs, c.isDigit = true) :
    readRadix cs = (10, cs) := by
  unfold readRadix
  split
  · have := isDigit_toNat 'x' (h 'x' (by simp))
    simp at this
  · have := isDigit_toNat 'X' (h 'X' (by simp))
    simp at this
  · rfl

theorem takeWhile_digits (cs : List Char) (h : ∀ c ∈ cs, c.isDigit = true) :
    cs.takeWhile (fun c => (digitValue 10 c).isSome) = cs := by
  rw [List.takeWhile_eq_self_iff]
  intro c hc
  simp [digitValue_of_isDigit c (h c hc)]

theorem parseInt_digits (cs : List Char) (h : ∀ c ∈ cs, c.isDigit = true) (hne : cs ≠ [])
    (hlen : cs.length ≤ 15) : parseInt (String.mk cs) = .int (digitsToNat 10 cs) := by
  obtain ⟨c, r, rfl⟩ := List.exists_cons_of_ne_nil hne
  have hc := h c (by simp)
  have hws := digit_not_space c hc
  have hlt : digitsToNat 10 (c :: r) < 2 ^ 53 := by
    have := foldl_digits_lt (c :: r) h 0
    have h2 : 10 ^ (c :: r).length ≤ 10 ^ 15 := Nat.pow_le_pow_right (by norm_num) hlen
    unfold digitsToNat
    simp only [Nat.zero_add, Nat.one_mul] at this
    calc _ < 10 ^ (c :: r).length := this
      _ ≤ 10 ^ 15 := h2
      _ ≤ 2 ^ 53 := by norm_num
  have hround : roundToDouble (digitsToNat 10 (c :: r)) = some (digitsToNat 10 (c :: r)) := by
    unfold roundToDouble
    rw [if_pos hlt]
  have hdrop : List.dropWhile isJSWhiteSpace (c :: r) = c :: r := by
    simp [List.dropWhile_cons, hws]
  unfold parseInt
  simp only [hdrop, readSign_digit c r hc, readRadix_digits (c :: r) h,
    takeWhile_digits (c :: r) h, hround]
  simp

/-! ## Creating a bookmark: the call -/

theorem create_entry_calls (form : Form) (s : State)
    (hn : form.name ≠ "") (hu : form.url ≠ "") (he : form.episode ≠ "") :
    create_entry form s =
      invoke "insert" (.entry (JSON_stringify
        ⟨.str form.name, .str form.url, .num (parseInt form.episode), .bool false⟩)) .insert s := by
  simp [create_entry, hn, hu, he]

/-- C2, as stated, fails: with the inputs name `a`, url `u` and episode
`abc`, all non-empty, `parseInt` gives `NaN`, `JSON.stringify` writes it as
`null`, and the entry passed to `insert` decodes to a bookmark whose
`episode` is `null`, not an integer. -/
theorem create_entry_sends_null_episode :
    (create_entry ⟨"a", "u", "abc"⟩ (State.init [])).calls =
      [⟨"insert", .entry (.object [("name", .str "a"), ("url", .str "u"), ("episode", .null),
        ("has_new", .bool false)]), .insert⟩] ∧
    (Bookmark.ofText (.object [("name", .str "a"), ("url", .str "u"), ("episode", .null),
        ("has_new", .bool false)])).map Bookmark.episode = .ok .null :=
  ⟨by decide, rfl⟩

/-- C2 (amended): for every form state in which name, url and episode are
all non-empty, the entry passed to `insert` has an `episode` member that
is the JSON form of `parseInt(episode.value)`: an integer when `parseInt`
finds one, and `null` otherwise (never absent, never another type).  It is
the integer the field denotes whenever the field consists of at most 15
decimal digits. -/
theorem create_entry_episode_member (form : Form) (s : State)
    (hn : form.name ≠ "") (hu : form.url ≠ "") (he : form.episode ≠ "") :
    ∃ ep : Json,
      (create_entry form s).calls = s.calls ++ [⟨"insert", .entry (.object
          [("name", .str form.name), ("url", .str form.url), ("episode", ep),
           ("has_new", .bool false)]), .insert⟩] ∧
      (ep = .null ∨ ∃ i : Int, ep = .num i) ∧
      (ep = match parseInt form.episode with | .int i => .num i | _ => .null) ∧
      ((∀ c ∈ form.episode.data, c.isDigit = true) → form.episode.length ≤ 15 →
          ep = .num (digitsToNat 10 form.episode.data)) := by
  rw [create_entry_calls form s hn hu he]
  have hdigits : (∀ c ∈ form.episode.data, c.isDigit = true) → form.episode.length ≤ 15 →
      parseInt form.episode = .int (digitsToNat 10 form.episode.data) := by
    intro hd hl
    have hne : form.episode.data ≠ [] := by
      intro h0
      apply he
      cases hf : form.episode with
      | mk d => simp [hf] at h0; simp [h0]
    exact parseInt_digits form.episode.data hd hne hl
  cases hp : parseInt form.episode with
  | int i =>
    refine ⟨.num i, rfl, Or.inr ⟨i, rfl⟩, rfl, fun hd hl => ?_⟩
    have := hdigits hd hl
    rw [hp] at this
    injection this with this
    rw [this]
  | nan =>
    refine ⟨.null, rfl, Or.inl rfl, rfl, fun hd hl => ?_⟩
    have := hdigits hd hl
    rw [hp] at this
    cases this
  | inf neg =>
    refine ⟨.null, rfl, Or.inl rfl, rfl, fun hd hl => ?_⟩
    have := hdigits hd hl
    rw [hp] at this
    cases this

theorem create_entry_episode_member_witness :
    ∃ ep : Json,
      (create_entry ⟨"One Piece", "https://example.org/one-piece", "1071"⟩ (State.init [])).calls =
        [⟨"insert", .entry (.object
          [("name", .str "One Piece"), ("url", .str "https://example.org/one-piece"),
           ("episode", ep), ("has_new", .bool false)]), .insert⟩] ∧
      ep = .num 1071 :=
  match create_entry_episode_member ⟨"One Piece", "https://example.org/one-piece", "1071"⟩
    (State.init []) (by decide) (by decide) (by decide) with
  | ⟨ep, hcalls, _, _, hdigits⟩ =>
    ⟨ep, hcalls, (hdigits (by decide) (by decide)).trans (by decide)⟩

/-- C3: when name, url and episode are all non-empty, `create_entry` issues
exactly one backend call, `insert`, whose argument object is `entry: s`
with `s` the JSON encoding of the `Bookmark` built from the form; `s`
decodes to a bookmark whose `name` is the name input, whose `url` is the
url input and whose `has_new` is `false`.  The table and the alerts are
untouched by the call itself. -/
theorem create_entry_issues_insert (form : Form) (s : State)
    (hn : form.name ≠ "") (hu : form.url ≠ "") (he : form.episode ≠ "") :
    ∃ text episode,
      (create_entry form s).calls = s.calls ++ [⟨"insert", .entry text, .insert⟩] ∧
      text = JSON_stringify
        ⟨.str form.name, .str form.url, .num (parseInt form.episode), .bool false⟩ ∧
      Bookmark.ofText text = .ok ⟨.str form.name, .str form.url, episode, .bool false⟩ ∧
      (create_entry form s).table = s.table ∧ (create_entry form s).alerts = s.alerts := by
  rw [create_entry_calls form s hn hu he]
  cases hp : parseInt form.episode with
  | int i =>
    exact ⟨_, .num (JSNum.ofInt i), rfl, rfl, by
      simp [JSON_stringify, stringifyMember, Bookmark.ofText, JSON_parse, JSObj.get, Json.toJS,
        bind, Except.bind, pure, Except.pure, List.lookup], rfl, rfl⟩
  | nan =>
    exact ⟨_, .null, rfl, rfl, by
      simp [JSON_stringify, stringifyMember, Bookmark.ofText, JSON_parse, JSObj.get, Json.toJS,
        bind, Except.bind, pure, Except.pure, List.lookup], rfl, rfl⟩
  | inf neg =>
    exact ⟨_, .null, rfl, rfl, by
      simp [JSON_stringify, stringifyMember, Bookmark.ofText, JSON_parse, JSObj.get, Json.toJS,
        bind, Except.bind, pure, Except.pure, List.lookup], rfl, rfl⟩

theorem create_entry_issues_insert_witness :
    ∃ text episode,
      (create_entry ⟨"Bleach", "https://example.org/bleach", "12"⟩ (State.init [])).calls =
        [] ++ [⟨"insert", .entry text, .insert⟩] ∧
      text = JSON_stringify ⟨.str "Bleach", .str "https://example.org/bleach",
        .num (parseInt "12"), .bool false⟩ ∧
      Bookmark.ofText text =
        .ok ⟨.str "Bleach", .str "https://example.org/bleach", episode, .bool false⟩ ∧
      (create_entry ⟨"Bleach", "https://example.org/bleach", "12"⟩ (State.init [])).table =
        (State.init []).table ∧
      (create_entry ⟨"Bleach", "https://example.org/bleach", "12"⟩ (State.init [])).alerts =
        (State.init []).alerts :=
  create_entry_issues_insert ⟨"Bleach", "https://example.org/bleach", "12"⟩ (State.init [])
    (by decide) (by decide) (by decide)

/-- C4: when the `insert` call fails with the error value `e`, the script
alerts `e` itself exactly once and changes neither the table nor anything
else; in particular the table after the failure is the table before
`create_entry` was called: no row added, removed or changed. -/
theorem insert_failure_alerts_once (e : JSVal) (s : State) :
    (create_entry_settle (.reject e) s).alerts = s.alerts ++ [.value e] ∧
    (create_entry_settle (.reject e) s).table = s.table ∧
    (create_entry_settle (.reject e) s).calls = s.calls ∧
    ∀ form : Form,
      (create_entry_settle (.reject e) (create_entry form s)).table = s.table ∧
      (create_entry_settle (.reject e) (create_entry form s)).alerts =
        s.alerts ++ [.value e] := by
  refine ⟨rfl, rfl, rfl, fun form => ?_⟩
  unfold create_entry
  split_ifs <;> exact ⟨rfl, rfl⟩

/-! ## The row buttons -/

/-- C6: in a row built by `build_entry` for a bookmark named `n`, a click on
`+1` issues exactly one call, `advance` with argument `name: n`; a click
on `-1` exactly one call, `previous` with `name: n`; a click on `x`
exactly one call, `remove` with `name: n`; a click on any other button
(`copy`) issues no backend call.  When `url` is a string the row does carry
the three buttons. -/
theorem row_buttons_issue_calls (b : Bookmark) (row : Row)
    (hrow : row.cells.length = 0 ∨ row.cells.length = 5) (s : State) :
    (∀ c ∈ (b.build_entry row).1.cells, ∀ btn ∈ c.children,
      (btn.textContent = "+1" →
        (click btn.onClick s).calls = s.calls ++ [⟨"advance", .name b.name, .rerender row.key⟩]) ∧
      (btn.textContent = "-1" →
        (click btn.onClick s).calls = s.calls ++ [⟨"previous", .name b.name, .rerender row.key⟩]) ∧
      (btn.textContent = "x" →
        (click btn.onClick s).calls = s.calls ++ [⟨"remove", .name b.name, .none⟩]) ∧
      (btn.textContent ≠ "+1" → btn.textContent ≠ "-1" → btn.textContent ≠ "x" →
        (click btn.onClick s).calls = s.calls)) ∧
    (∀ u, b.url = .str u →
      (b.build_entry row).1.button "+1" = some ⟨"+1", .incr b.name row.key⟩ ∧
      (b.build_entry row).1.button "-1" = some ⟨"-1", .decr b.name row.key⟩ ∧
      (b.build_entry row).1.button "x" = some ⟨"x", .remove b.name row.key⟩) := by
  rw [build_entry_of_rendered b row hrow]
  constructor
  · intro c hc btn hbtn
    cases hu : b.url.substring 12 70 <;>
      simp [Bookmark.freshCells, hu, Cell.new] at hc <;>
      rcases hc with rfl | rfl | rfl | rfl | rfl <;>
      simp at hbtn <;>
      (try rcases hbtn with rfl | rfl | rfl) <;>
      simp [click, increment, decrement, invoke, writeText]
  · intro u hu
    simp [Row.button, Bookmark.freshCells, hu, JSVal.substring, List.find?]

theorem row_buttons_issue_calls_witness :
    (click (Listener.incr (.str "Bleach") 1) (State.init [])).calls =
      (State.init []).calls ++ [⟨"advance", .name (.str "Bleach"), .rerender 1⟩] :=
  ((row_buttons_issue_calls ⟨.str "Bleach", .str "https://example.org/bleach", .num (.int 12),
      .bool false⟩ (Row.new 1) (Or.inl rfl) (State.init [])).1
    ⟨.str "", [⟨"-1", .decr (.str "Bleach") 1⟩, ⟨"+1", .incr (.str "Bleach") 1⟩,
      ⟨"copy", .copy (.str "https://example.org/bleach")⟩]⟩ (by decide)
    ⟨"+1", .incr (.str "Bleach") 1⟩ (by decide)).1 rfl

/-! ## Re-rendering a row -/

theorem ofInt_exact (i : Int) (h : i.natAbs < 2 ^ 53) : JSNum.ofInt i = .int i := by
  have hround : roundToDouble i.natAbs = some i.natAbs := by
    unfold roundToDouble
    rw [if_pos h]
  unfold JSNum.ofInt
  rw [hround]
  by_cases hneg : i < 0
  · simp only [hneg, if_true]
    rw [Int.ofNat_natAbs_of_nonpos (le_of_lt hneg), neg_neg]
  · simp only [hneg, if_false]
    rw [Int.natAbs_of_nonneg (not_lt.mp hneg)]

theorem build_entry_shows (rec : Record) (r : Row) :
    (rec.toBookmark.build_entry r).1.key = r.key ∧
    ((rec.toBookmark.build_entry r).1.cells[1]?).map Cell.innerText = some (.str rec.name) ∧
    ((rec.toBookmark.build_entry r).1.cells[2]?).map Cell.innerText =
      some (.num (JSNum.ofInt rec.episode)) ∧
    (rec.toBookmark.build_entry r).1.id = (if rec.has_new then "has_new" else "") ∧
    (rec.toBookmark.build_entry r).1.className = "bookmark_row" := by
  rw [build_entry_fst]
  simp [Bookmark.freshCells, Record.toBookmark, truthy, JSVal.substring]

/-- C8: when the answer to `advance` or `previous` is the JSON encoding of a
bookmark record, processing it keeps the number of rows and their order,
leaves every row other than the clicked one (the row the listener
captured) as it was, and makes the clicked row show the name and the
episode the answer decodes to, with id `has_new` exactly when the record
has `has_new` set and the empty id otherwise.  `JSON.parse` reads a number
as a double: the episode shown is the record's episode itself when its
magnitude is below `2 ^ 53`, and the nearest double beyond.  A row that
had 5 cells (or none) has 5 cells afterwards: the old cells are replaced.
No call is issued and no alert shown. -/
theorem rerender_updates_in_place (row : Nat) (rec : Record) (s : State) :
    (rerender_settle row (.resolve rec.toJson) s).table.length = s.table.length ∧
    (rerender_settle row (.resolve rec.toJson) s).table.map Row.key = s.table.map Row.key ∧
    (∀ (i : Nat) (r : Row), s.table[i]? = some r →
      (r.key ≠ row → (rerender_settle row (.resolve rec.toJson) s).table[i]? = some r) ∧
      (r.key = row → ∃ r1 : Row, (rerender_settle row (.resolve rec.toJson) s).table[i]? = some r1 ∧
        r1.key = row ∧
        (r1.cells[1]?).map Cell.innerText = some (.str rec.name) ∧
        (r1.cells[2]?).map Cell.innerText = some (.num (JSNum.ofInt rec.episode)) ∧
        (rec.episode.natAbs < 2 ^ 53 →
          (r1.cells[2]?).map Cell.innerText = some (.num (.int rec.episode))) ∧
        r1.id = (if rec.has_new then "has_new" else "") ∧
        (r.cells.length = 0 ∨ r.cells.length = 5 → r1.cells.length = 5))) ∧
    (rerender_settle row (.resolve rec.toJson) s).calls = s.calls ∧
    (rerender_settle row (.resolve rec.toJson) s).alerts = s.alerts := by
  have hs : rerender_settle row (.resolve rec.toJson) s =
      { s with table := renderRow rec.toBookmark row s.table } := by
    simp [rerender_settle, rerender_then, ofText_toJson]
  rw [hs]
  refine ⟨by simp [renderRow], ?_, ?_, rfl, rfl⟩
  · simp only [renderRow, List.map_map]
    apply List.map_congr_left
    intro r _
    by_cases h : r.key = row
    · simp [h, (build_entry_shows rec r).1]
    · simp [h]
  · intro i r hi
    have hget : (renderRow rec.toBookmark row s.table)[i]? =
        some (if r.key = row then (rec.toBookmark.build_entry r).1 else r) := by
      simp [renderRow, List.getElem?_map, hi]
    constructor
    · intro h
      simp [hget, h]
    · intro h
      obtain ⟨h1, h2, h3, h4, _⟩ := build_entry_shows rec r
      refine ⟨_, by simp [hget, h], by rw [h1, h], h2, h3, fun hsmall => ?_, h4, fun hcells => ?_⟩
      · rw [h3, ofInt_exact rec.episode hsmall]
      · rw [build_entry_of_rendered rec.toBookmark r hcells]
        exact freshCells_length rec.toBookmark r.key

/-! ## Listing -/

theorem deleteDataRows_cons (hdr : Row) (rest : List Row) :
    deleteDataRows (hdr :: rest) = [hdr] := by
  unfold deleteDataRows
  induction rest with
  | nil => rfl
  | cons a r ih =>
    simp only [List.length_cons, Nat.add_sub_cancel] at ih ⊢
    rw [Function.iterate_succ_apply]
    exact ih

theorem appendEntry_record (r : Record) (s : State) :
    appendEntry r.toBookmark s =
      ({ s with table := s.table ++ [(r.toBookmark.build_entry (Row.new s.nextKey)).1],
                nextKey := s.nextKey + 1 }, none) := by
  simp [appendEntry, build_entry_snd, Record.toBookmark, JSVal.substring]

theorem appendEntries_records (L : List Record) (s : State) :
    appendEntries (L.map Record.toJson) s =
      ({ s with table := s.table ++ renderedRows L s.nextKey,
                nextKey := s.nextKey + L.length }, none) := by
  induction L generalizing s with
  | nil => simp [appendEntries, renderedRows]
  | cons r L ih =>
    simp only [List.map_cons, appendEntries, ofText_toJson, appendEntry_record, ih, renderedRows,
      List.length_cons]
    simp [Nat.add_assoc, Nat.add_comm 1]

theorem renderedRows_length (L : List Record) (key : Nat) :
    (renderedRows L key).length = L.length := by
  induction L generalizing key with
  | nil => rfl
  | cons r L ih => simp [renderedRows, ih]

theorem renderedRows_getElem? (L : List Record) (key i : Nat) (r : Record) (h : L[i]? = some r) :
    (renderedRows L key)[i]? = some (r.toBookmark.build_entry (Row.new (key + i))).1 := by
  induction L generalizing key i with
  | nil => simp at h
  | cons a L ih =>
    cases i with
    | zero =>
      simp at h
      simp [renderedRows, h]
    | succ i =>
      simp at h
      simp only [renderedRows, List.getElem?_cons_succ]
      rw [ih (key + 1) i h]
      simp [Nat.add_assoc, Nat.add_comm 1]

theorem build_entry_display (r : Record) (key key1 : Nat) :
    (r.toBookmark.build_entry (Row.new key)).1.display =
      (r.toBookmark.build_entry (Row.new key1)).1.display := by
  simp [build_entry_fst, Row.display, Row.new, Bookmark.freshCells, Record.toBookmark,
    JSVal.substring]

theorem renderedRows_display (L : List Record) (key key1 : Nat) :
    (renderedRows L key).map Row.display = (renderedRows L key1).map Row.display := by
  induction L generalizing key key1 with
  | nil => rfl
  | cons r L ih =>
    simp only [renderedRows, List.map_cons]
    rw [build_entry_display r key key1, ih (key + 1) (key1 + 1)]

theorem fetch_settle_records (hdr : Row) (rest : List Row) (s : State)
    (hs : s.table = hdr :: rest) (L : List Record) :
    fetch_bookmarks_settle (.resolve (L.map Record.toJson)) s =
      { s with table := hdr :: renderedRows L s.nextKey, nextKey := s.nextKey + L.length } := by
  simp [fetch_bookmarks_settle, fetch_bookmarks_then, appendEntries_records, hs,
    deleteDataRows_cons]

/-- C5: when the table has at least its header row and the backend answers
`fetch_bookmarks` with the encodings of the list `L`, the table becomes the
original header row followed by exactly `|L|` rows, the i-th showing the
name and the episode the i-th element of `L` decodes to; an empty `L`
leaves only the header, and a second refresh with the same `L` displays the
same rows as the first (no stale or duplicated row).  `JSON.parse` reads a
number as a double: the episode shown is the element's episode itself when
its magnitude is below `2 ^ 53`, and the nearest double beyond. -/
theorem fetch_redisplays_listing (hdr : Row) (rest : List Row) (s : State)
    (hs : s.table = hdr :: rest) (L : List Record) :
    ∃ rows : List Row,
      (fetch_bookmarks_settle (.resolve (L.map Record.toJson)) s).table = hdr :: rows ∧
      rows.length = L.length ∧
      (∀ (i : Nat) (r : Record), L[i]? = some r → ∃ row : Row, rows[i]? = some row ∧
        (row.cells[1]?).map Cell.innerText = some (.str r.name) ∧
        (row.cells[2]?).map Cell.innerText = some (.num (JSNum.ofInt r.episode)) ∧
        (r.episode.natAbs < 2 ^ 53 →
          (row.cells[2]?).map Cell.innerText = some (.num (.int r.episode))) ∧
        row.cells.length = 5) ∧
      (L = [] → (fetch_bookmarks_settle (.resolve (L.map Record.toJson)) s).table = [hdr]) ∧
      (fetch_bookmarks_settle (.resolve (L.map Record.toJson))
          (fetch_bookmarks_settle (.resolve (L.map Record.toJson)) s)).table.map Row.display =
        (fetch_bookmarks_settle (.resolve (L.map Record.toJson)) s).table.map Row.display ∧
      (fetch_bookmarks s).calls = s.calls ++ [⟨"fetch_bookmarks", .none, .fetch⟩] := by
  have h1 := fetch_settle_records hdr rest s hs L
  have h2 := fetch_settle_records hdr (renderedRows L s.nextKey)
    (fetch_bookmarks_settle (.resolve (L.map Record.toJson)) s) (by rw [h1]) L
  refine ⟨renderedRows L s.nextKey, by rw [h1], renderedRows_length L _, ?_, ?_, ?_, rfl⟩
  · intro i r hi
    refine ⟨_, renderedRows_getElem? L s.nextKey i r hi, (build_entry_shows r _).2.1,
      (build_entry_shows r _).2.2.1, fun hsmall => ?_, ?_⟩
    · rw [(build_entry_shows r _).2.2.1, ofInt_exact r.episode hsmall]
    rw [build_entry_of_rendered r.toBookmark (Row.new (s.nextKey + i)) (Or.inl rfl)]
    exact freshCells_length r.toBookmark _
  · intro hL
    subst hL
    rw [h1]
    rfl
  · rw [h2, h1]
    simp only [List.map_cons]
    rw [renderedRows_display L _ s.nextKey]

/-! ## The row-shape invariant -/

theorem wellFormed_build_entry (b : Bookmark) (row : Row) (hkey : row.key ≠ 0)
    (hcells : row.cells.length = 0 ∨ row.cells.length = 5) :
    (b.build_entry row).1.WellFormed := by
  rw [build_entry_of_rendered b row hcells]
  refine ⟨freshCells_length b _, hkey, ?_⟩
  intro c hc btn hbtn
  cases hu : b.url.substring 12 70 <;>
    simp [Bookmark.freshCells, hu, Cell.new] at hc <;>
    rcases hc with rfl | rfl | rfl | rfl | rfl <;>
    simp at hbtn <;>
    (try rcases hbtn with rfl | rfl | rfl) <;>
    simp [Listener.row, hkey]

theorem invariant_init (headings : List String) : (State.init headings).Invariant := by
  refine ⟨_, [], rfl, rfl, ?_, Nat.one_pos, by simp, by simp [State.init]⟩
  intro c hc
  simp at hc
  obtain ⟨_, _, rfl⟩ := hc
  rfl

theorem invariant_invoke (cmd : String) (args : Args) (k : Cont) (s : State)
    (hk : k ≠ .rerender 0) (h : s.Invariant) : (invoke cmd args k s).Invariant := by
  obtain ⟨hdr, rest, h1, h2, h3, h4, h5, h6⟩ := h
  refine ⟨hdr, rest, h1, h2, h3, h4, h5, ?_⟩
  intro call hcall
  simp [invoke] at hcall
  rcases hcall with hcall | rfl
  · exact h6 call hcall
  · exact hk

theorem invariant_appendEntry (b : Bookmark) (s : State) (h : s.Invariant) :
    (appendEntry b s).1.Invariant := by
  obtain ⟨hdr, rest, h1, h2, h3, h4, h5, h6⟩ := h
  refine ⟨hdr, rest ++ [(b.build_entry (Row.new s.nextKey)).1], by simp [appendEntry, h1], h2, h3,
    by simp [appendEntry], ?_, h6⟩
  intro r hr
  simp at hr
  rcases hr with hr | rfl
  · exact h5 r hr
  · exact wellFormed_build_entry b _ (by simp [Row.new]; omega) (Or.inl rfl)

theorem invariant_appendEntries (strings : List JsonText) (s : State) (h : s.Invariant) :
    (appendEntries strings s).1.Invariant := by
  induction strings generalizing s with
  | nil => exact h
  | cons item rest ih =>
    cases hb : Bookmark.ofText item with
    | error e =>
      simp only [appendEntries, hb]
      exact h
    | ok b =>
      have hs := invariant_appendEntry b s h
      cases ha : appendEntry b s with
      | mk s1 err =>
        rw [ha] at hs
        cases err with
        | none =>
          simp only [appendEntries, hb, ha]
          exact ih s1 hs
        | some e =>
          simp only [appendEntries, hb, ha]
          exact hs

theorem invariant_deleteDataRows (s : State) (h : s.Invariant) :
    State.Invariant { s with table := deleteDataRows s.table } := by
  obtain ⟨hdr, rest, h1, h2, h3, h4, _, h6⟩ := h
  exact ⟨hdr, [], by simp [h1, deleteDataRows_cons], h2, h3, h4, by simp, h6⟩

theorem invariant_renderRow (b : Bookmark) (row : Nat) (hrow : row ≠ 0) (s : State)
    (h : s.Invariant) : State.Invariant { s with table := renderRow b row s.table } := by
  obtain ⟨hdr, rest, h1, h2, h3, h4, h5, h6⟩ := h
  refine ⟨hdr, renderRow b row rest, ?_, h2, h3, h4, ?_, h6⟩
  · have : ¬ hdr.key = row := by rw [h2]; exact fun h => hrow h.symm
    simp [h1, renderRow, this]
  · intro r hr
    simp only [renderRow, List.mem_map] at hr
    obtain ⟨r0, hr0, rfl⟩ := hr
    have hw := h5 r0 hr0
    split
    · exact wellFormed_build_entry b r0 hw.2.1 (Or.inr hw.1)
    · exact hw

theorem invariant_click (s : State) (r : Row) (c : Cell) (b : Button)
    (hr : r ∈ s.table) (hc : c ∈ r.cells) (hb : b ∈ c.children) (h : s.Invariant) :
    (click b.onClick s).Invariant := by
  have hl : b.onClick.row ≠ some 0 := by
    obtain ⟨hdr, rest, h1, _, h3, _, h5, _⟩ := h
    rw [h1] at hr
    rcases List.mem_cons.mp hr with rfl | hr
    · rw [h3 c hc] at hb
      simp at hb
    · exact (h5 r hr).2.2 c hc b hb
  cases hcl : b.onClick with
  | decr name row =>
    rw [hcl] at hl
    exact invariant_invoke _ _ _ s (by simpa [Listener.row] using hl) h
  | incr name row =>
    rw [hcl] at hl
    exact invariant_invoke _ _ _ s (by simpa [Listener.row] using hl) h
  | copy url => exact h
  | remove name row =>
    rw [hcl] at hl
    have hrow : row ≠ 0 := by simpa [Listener.row] using hl
    obtain ⟨hdr, rest, h1, h2, h3, h4, h5, h6⟩ := invariant_invoke "remove" (.name name) .none s
      (by simp) h
    refine ⟨hdr, removeChild row rest, ?_, h2, h3, h4, ?_, h6⟩
    · simp only [click]
      rw [h1]
      simp [removeChild, List.filter_cons, h2, hrow.symm]
    · intro x hx
      exact h5 x (List.mem_of_mem_filter hx)

theorem invariant_step {s t : State} (hstep : Step s t) (h : s.Invariant) : t.Invariant := by
  cases hstep with
  | load => exact invariant_invoke _ _ _ s (by simp) h
  | create form _ =>
    unfold create_entry
    split_ifs
    · exact h
    · exact h
    · exact h
    · exact invariant_invoke _ _ _ s (by simp) h
  | press _ r c b hr hc hb => exact invariant_click s r c b hr hc hb h
  | fetched _ call o _ _ =>
    cases o with
    | reject e => exact h
    | resolve strings => exact invariant_appendEntries strings _ (invariant_deleteDataRows s h)
  | inserted _ call o _ _ =>
    cases o with
    | reject e => exact h
    | resolve result =>
      cases hb : Bookmark.ofText result with
      | error e =>
        simp only [create_entry_settle, create_entry_then, hb]
        exact h
      | ok b =>
        have hs := invariant_appendEntry b s h
        cases ha : appendEntry b s with
        | mk s1 err =>
          rw [ha] at hs
          cases err with
          | none =>
            simp only [create_entry_settle, create_entry_then, hb, ha]
            exact hs
          | some e =>
            simp only [create_entry_settle, create_entry_then, hb, ha]
            exact hs
  | rerendered _ call row o hcall hcont =>
    have hrow : row ≠ 0 := by
      obtain ⟨_, _, _, _, _, _, _, h6⟩ := h
      intro h0
      exact h6 call hcall (by rw [hcont, h0])
    cases o with
    | reject e => exact h
    | resolve entry =>
      cases hb : Bookmark.ofText entry with
      | error e =>
        simp only [rerender_settle, rerender_then, hb]
        exact h
      | ok b =>
        simp only [rerender_settle, rerender_then, hb]
        exact invariant_renderRow b row hrow s h
  | removed _ call o _ _ => exact h

theorem invariant_reachable (headings : List String) (s : State) (h : Reachable headings s) :
    s.Invariant := by
  induction h with
  | init => exact invariant_init headings
  | step _ hstep ih => exact invariant_step hstep ih

/-- C10: in every state reachable from the header-only table through
`fetch_bookmarks` answers, `create_entry` answers and clicks on `+1`, `-1`,
`x` with their answers, the table is the header row followed by rows of
exactly 5 cells each; and `build_entry` leaves exactly 5 cells in a row
that had 0 or 5 cells, so re-rendering replaces the cells of a row. -/
theorem data_rows_have_five_cells (headings : List String) (s : State)
    (h : Reachable headings s) :
    (∃ hdr rest, s.table = hdr :: rest ∧ hdr.key = 0 ∧ ∀ r ∈ rest, r.cells.length = 5) ∧
    ∀ (b : Bookmark) (row : Row), row.cells.length = 0 ∨ row.cells.length = 5 →
      (b.build_entry row).1.cells.length = 5 := by
  constructor
  · obtain ⟨hdr, rest, h1, h2, _, _, h5, _⟩ := invariant_reachable headings s h
    exact ⟨hdr, rest, h1, h2, fun r hr => (h5 r hr).1⟩
  · intro b row hrow
    rw [build_entry_of_rendered b row hrow]
    exact freshCells_length b _

theorem data_rows_have_five_cells_witness :
    Reachable ["", "name", "episode", "url", ""]
      (fetch_bookmarks_settle
        (.resolve [Record.toJson ⟨"Bleach", "https://example.org/bleach", 12, false⟩])
        (fetch_bookmarks (State.init ["", "name", "episode", "url", ""]))) ∧
    ∃ hdr rest,
      (fetch_bookmarks_settle
        (.resolve [Record.toJson ⟨"Bleach", "https://example.org/bleach", 12, false⟩])
        (fetch_bookmarks (State.init ["", "name", "episode", "url", ""]))).table = hdr :: rest ∧
      hdr.key = 0 ∧ ∀ r ∈ rest, r.cells.length = 5 :=
  ⟨Reachable.step (Reachable.step Reachable.init (Step.load _))
      (Step.fetched _ ⟨"fetch_bookmarks", .none, .fetch⟩ _ (by decide) rfl),
    (data_rows_have_five_cells ["", "name", "episode", "url", ""] _
      (Reachable.step (Reachable.step Reachable.init (Step.load _))
        (Step.fetched _ ⟨"fetch_bookmarks", .none, .fetch⟩ _ (by decide) rfl))).1⟩

theorem build_entry_buttons (b : Bookmark) (u : String) (hu : b.url = .str u) (row : Row)
    (hrow : row.cells.length = 0 ∨ row.cells.length = 5) :
    (b.build_entry row).1.button "+1" = some ⟨"+1", .incr b.name row.key⟩ ∧
    (b.build_entry row).1.button "-1" = some ⟨"-1", .decr b.name row.key⟩ ∧
    (b.build_entry row).1.button "x" = some ⟨"x", .remove b.name row.key⟩ := by
  rw [build_entry_of_rendered b row hrow]
  simp [Row.button, Bookmark.freshCells, hu, JSVal.substring, List.find?]

theorem findRow_split (pre post : List Row) (r : Row) (hkeys : ∀ x ∈ pre ++ post, x.key ≠ r.key) :
    findRow r.key (pre ++ r :: post) = some r := by
  unfold findRow
  rw [List.find?_append]
  have : pre.find? (fun x => x.key == r.key) = none := by
    rw [List.find?_eq_none]
    intro x hx
    simpa using hkeys x (by simp [hx])
  simp [this]

theorem renderRow_other (b : Bookmark) (key : Nat) (rows : List Row)
    (hkeys : ∀ x ∈ rows, x.key ≠ key) : renderRow b key rows = rows := by
  induction rows with
  | nil => rfl
  | cons a rows ih =>
    have ha : a.key ≠ key := hkeys a (by simp)
    have := ih (fun x hx => hkeys x (by simp [hx]))
    simp only [renderRow] at this
    simp [renderRow, ha, this]

theorem renderRow_split (b : Bookmark) (pre post : List Row) (r : Row)
    (hkeys : ∀ x ∈ pre ++ post, x.key ≠ r.key) :
    renderRow b r.key (pre ++ r :: post) = pre ++ (b.build_entry r).1 :: post := by
  have hpre := renderRow_other b r.key pre (fun x hx => hkeys x (by simp [hx]))
  have hpost := renderRow_other b r.key post (fun x hx => hkeys x (by simp [hx]))
  simp only [renderRow] at hpre hpost
  simp [renderRow, hpre, hpost]

theorem advance_split (pre post : List Record) (r : Record)
    (hnames : ∀ x ∈ pre, x.name ≠ r.name) :
    Backend.advance (pre ++ r :: post) r.name =
      some (pre ++ { r with episode := r.episode + 1, has_new := true } :: post,
        { r with episode := r.episode + 1, has_new := true }) := by
  induction pre with
  | nil => simp [Backend.advance]
  | cons a pre ih =>
    have ha : a.name ≠ r.name := hnames a (by simp)
    simp [Backend.advance, ha, ih (fun x hx => hnames x (by simp [hx]))]

/-! ## Removing a row -/

theorem fetch_redisplays_listing_witness :
    ∃ rows : List Row,
      (fetch_bookmarks_settle
        (.resolve ([⟨"Bleach", "https://example.org/bleach", 12, false⟩,
          ⟨"One Piece", "https://example.org/one-piece", 1071, true⟩].map Record.toJson))
        { State.init ["", "name", "episode", "url", ""] with
          table := [⟨0, "", "", []⟩, ⟨1, "bookmark_row", "", []⟩], nextKey := 2 }).table =
        ⟨0, "", "", []⟩ :: rows ∧
      rows.length = 2 ∧
      ∃ row : Row, rows[1]? = some row ∧
        (row.cells[1]?).map Cell.innerText = some (.str "One Piece") ∧
        (row.cells[2]?).map Cell.innerText = some (.num (.int 1071)) :=
  match fetch_redisplays_listing ⟨0, "", "", []⟩ [⟨1, "bookmark_row", "", []⟩]
    { State.init ["", "name", "episode", "url", ""] with
      table := [⟨0, "", "", []⟩, ⟨1, "bookmark_row", "", []⟩], nextKey := 2 } rfl
    [⟨"Bleach", "https://example.org/bleach", 12, false⟩,
      ⟨"One Piece", "https://example.org/one-piece", 1071, true⟩] with
  | ⟨rows, htable, hlen, hshow, _⟩ =>
    ⟨rows, htable, hlen,
      match hshow 1 ⟨"One Piece", "https://example.org/one-piece", 1071, true⟩ rfl with
      | ⟨row, hrow, hname, _, hexact, _⟩ => ⟨row, hrow, hname, hexact (by decide)⟩⟩

theorem removeChild_split (pre post : List Row) (r : Row)
    (hkeys : ∀ x ∈ pre ++ post, x.key ≠ r.key) :
    removeChild r.key (pre ++ r :: post) = pre ++ post := by
  have hpre : pre.filter (fun x => x.key != r.key) = pre := by
    rw [List.filter_eq_self]
    intro x hx
    simpa using hkeys x (by simp [hx])
  have hpost : post.filter (fun x => x.key != r.key) = post := by
    rw [List.filter_eq_self]
    intro x hx
    simpa using hkeys x (by simp [hx])
  simp [removeChild, List.filter_append, List.filter_cons, hpre, hpost]

/-- C9: a click on the `x` button of a data row `r` (a row built by
`build_entry`, told apart from the other rows by its key) issues the
`remove` call, takes exactly `r` out of the table and leaves the other rows
and their order as they were; whatever the outcome of the `remove` call,
success or failure, nothing further happens: the row is not restored and
no alert is shown. -/
theorem remove_click_ignores_backend (b : Bookmark) (u : String) (hu : b.url = .str u)
    (r0 : Row) (hr0 : r0.cells.length = 0 ∨ r0.cells.length = 5)
    (s : State) (pre post : List Row)
    (htable : s.table = pre ++ (b.build_entry r0).1 :: post)
    (hkeys : ∀ x ∈ pre ++ post, x.key ≠ r0.key) :
    ∃ btn : Button, (b.build_entry r0).1.button "x" = some btn ∧
      (click btn.onClick s).table = pre ++ post ∧
      (click btn.onClick s).calls = s.calls ++ [⟨"remove", .name b.name, .none⟩] ∧
      (click btn.onClick s).alerts = s.alerts ∧
      ∀ o : Outcome Unit,
        (remove_settle o (click btn.onClick s)).table = pre ++ post ∧
        (remove_settle o (click btn.onClick s)).alerts = s.alerts ∧
        (remove_settle o (click btn.onClick s)).calls = (click btn.onClick s).calls := by
  have hbtn := (build_entry_buttons b u hu r0 hr0).2.2
  have hkey : (b.build_entry r0).1.key = r0.key := by rw [build_entry_fst]
  have htab : (click (Listener.remove b.name r0.key) s).table = pre ++ post := by
    simp only [click, invoke, htable]
    rw [← hkey]
    exact removeChild_split pre post _ (by rw [hkey]; exact hkeys)
  exact ⟨_, hbtn, htab, rfl, rfl, fun _ => ⟨htab, rfl, rfl⟩⟩

theorem remove_click_ignores_backend_witness :
    ∃ btn : Button,
      (Bookmark.build_entry ⟨.str "Bleach", .str "https://example.org/bleach", .num (.int 12),
        .bool false⟩ (Row.new 1)).1.button "x" = some btn ∧
      (click btn.onClick
        { State.init ["", "name"] with
          table := [⟨0, "", "", []⟩] ++
            (Bookmark.build_entry ⟨.str "Bleach", .str "https://example.org/bleach",
              .num (.int 12), .bool false⟩ (Row.new 1)).1 :: [⟨2, "bookmark_row", "", []⟩],
          nextKey := 3 }).table = [⟨0, "", "", []⟩] ++ [⟨2, "bookmark_row", "", []⟩] :=
  match remove_click_ignores_backend
    ⟨.str "Bleach", .str "https://example.org/bleach", .num (.int 12), .bool false⟩
    "https://example.org/bleach" rfl (Row.new 1) (Or.inl rfl)
    { State.init ["", "name"] with
      table := [⟨0, "", "", []⟩] ++
        (Bookmark.build_entry ⟨.str "Bleach", .str "https://example.org/bleach",
          .num (.int 12), .bool false⟩ (Row.new 1)).1 :: [⟨2, "bookmark_row", "", []⟩],
      nextKey := 3 }
    [⟨0, "", "", []⟩] [⟨2, "bookmark_row", "", []⟩] rfl (by decide) with
  | ⟨btn, hbtn, htable, _⟩ => ⟨btn, hbtn, htable⟩

theorem build_entry_key (b : Bookmark) (row : Row) : (b.build_entry row).1.key = row.key := by
  rw [build_entry_fst]

theorem build_entry_cells_length (b : Bookmark) (row : Row)
    (hrow : row.cells.length = 0 ∨ row.cells.length = 5) :
    (b.build_entry row).1.cells.length = 5 := by
  rw [build_entry_of_rendered b row hrow]
  exact freshCells_length b row.key

theorem build_entry_twice (b b1 : Bookmark) (row : Row)
    (hrow : row.cells.length = 0 ∨ row.cells.length = 5) :
    (b1.build_entry (b.build_entry row).1).1 = (b1.build_entry row).1 := by
  rw [build_entry_of_rendered b1 (b.build_entry row).1
    (Or.inr (build_entry_cells_length b row hrow)), build_entry_of_rendered b1 row hrow,
    build_entry_key]

/-! ## Advancing a bookmark, with the backend in the loop -/

theorem advanced_zero (rec : Record) : rec.advanced 0 = rec := by
  obtain ⟨name, url, episode, has_new⟩ := rec
  simp [Record.advanced]

theorem advance_advanced (pre post : List Record) (rec : Record) (m : Nat)
    (hnames : ∀ x ∈ pre, x.name ≠ rec.name) :
    Backend.advance (pre ++ rec.advanced m :: post) rec.name =
      some (pre ++ rec.advanced (m + 1) :: post, rec.advanced (m + 1)) := by
  have h := advance_split pre post (rec.advanced m) hnames
  have he : (rec.advanced m).episode + 1 = rec.episode + ((m + 1 : Nat) : Int) := by
    simp only [Record.advanced]
    push_cast
    ring
  have hrec : ({ rec.advanced m with episode := (rec.advanced m).episode + 1, has_new := true } :
      Record) = rec.advanced (m + 1) := by
    rw [he]
    simp [Record.advanced]
  rw [hrec] at h
  exact h

theorem step_plusOne (rec : Record) (key : Nat) (sys : System) (m k : Nat)
    (tpre tpost : List Row) (spre spost : List Record)
    (htable : sys.page.table =
      tpre ++ ((rec.advanced k).toBookmark.build_entry (Row.new key)).1 :: tpost)
    (hstore : sys.store = spre ++ rec.advanced m :: spost)
    (hkeys : ∀ x ∈ tpre ++ tpost, x.key ≠ key)
    (hnames : ∀ x ∈ spre, x.name ≠ rec.name) :
    sys.step key .plusOne =
      { page := { sys.page with
          calls := sys.page.calls ++ [⟨"advance", .name (.str rec.name), .rerender key⟩] },
        store := spre ++ rec.advanced (m + 1) :: spost,
        answers := sys.answers ++ [(key, .resolve (rec.advanced (m + 1)).toJson)] } := by
  have hkey : ((rec.advanced k).toBookmark.build_entry (Row.new key)).1.key = key :=
    build_entry_key _ _
  have hfind : findRow key sys.page.table =
      some ((rec.advanced k).toBookmark.build_entry (Row.new key)).1 := by
    rw [htable]
    have := findRow_split tpre tpost ((rec.advanced k).toBookmark.build_entry (Row.new key)).1
      (by rw [hkey]; exact hkeys)
    rwa [hkey] at this
  have hbtn : ((rec.advanced k).toBookmark.build_entry (Row.new key)).1.button "+1" =
      some ⟨"+1", .incr (.str rec.name) key⟩ :=
    (build_entry_buttons (rec.advanced k).toBookmark rec.url rfl (Row.new key) (Or.inl rfl)).1
  have hlast : ∀ (l : List Call) (c : Call), (l ++ [c]).getLast? = some c := by
    intro l c
    simp
  unfold System.step
  simp only [hfind, Option.some_bind, hbtn, click, increment, invoke, hlast, if_true,
    Backend.answerAdvance, hstore, advance_advanced spre spost rec m hnames]

theorem step_deliver (rec : Record) (key : Nat) (sys : System) (i k : Nat)
    (tpre tpost : List Row)
    (htable : sys.page.table =
      tpre ++ ((rec.advanced k).toBookmark.build_entry (Row.new key)).1 :: tpost)
    (hanswer : sys.answers[i]? = some (key, .resolve (rec.advanced (i + 1)).toJson))
    (hkeys : ∀ x ∈ tpre ++ tpost, x.key ≠ key) :
    sys.step key (.deliver i) =
      { sys with page := { sys.page with
          table := tpre ++
            ((rec.advanced (i + 1)).toBookmark.build_entry (Row.new key)).1 :: tpost } } := by
  have hkey : ((rec.advanced k).toBookmark.build_entry (Row.new key)).1.key = key :=
    build_entry_key _ _
  have hrender : renderRow (rec.advanced (i + 1)).toBookmark key sys.page.table =
      tpre ++ ((rec.advanced (i + 1)).toBookmark.build_entry (Row.new key)).1 :: tpost := by
    rw [htable]
    have := renderRow_split (rec.advanced (i + 1)).toBookmark tpre tpost
      ((rec.advanced k).toBookmark.build_entry (Row.new key)).1 (by rw [hkey]; exact hkeys)
    rw [hkey] at this
    rw [this, build_entry_twice (rec.advanced k).toBookmark _ (Row.new key) (Or.inl rfl)]
  unfold System.step
  simp only [hanswer, rerender_settle, rerender_then, ofText_toJson, hrender]

theorem run_cons (key : Nat) (e : Event) (events : List Event) (sys : System) :
    System.run key (e :: events) sys = System.run key events (sys.step key e) := rfl

theorem run_schedule (rec : Record) (key : Nat) (tpre tpost : List Row)
    (spre spost : List Record) (calls0 : List Call)
    (hkeys : ∀ x ∈ tpre ++ tpost, x.key ≠ key)
    (hnames : ∀ x ∈ spre, x.name ≠ rec.name) (events : List Event) :
    ∀ (sys : System) (m k : Nat),
      sys.page.table =
        tpre ++ ((rec.advanced k).toBookmark.build_entry (Row.new key)).1 :: tpost →
      sys.store = spre ++ rec.advanced m :: spost →
      sys.answers = (List.range m).map
        (fun j => (key, Outcome.resolve (rec.advanced (j + 1)).toJson)) →
      sys.page.calls = calls0 ++
        List.replicate m ⟨"advance", .name (.str rec.name), .rerender key⟩ →
      (System.run key events sys).page.table =
        tpre ++ ((rec.advanced (events.foldl Event.track (m, k)).2).toBookmark.build_entry
          (Row.new key)).1 :: tpost ∧
      (System.run key events sys).store =
        spre ++ rec.advanced (events.foldl Event.track (m, k)).1 :: spost ∧
      (System.run key events sys).page.calls = calls0 ++
        List.replicate (events.foldl Event.track (m, k)).1
          ⟨"advance", .name (.str rec.name), .rerender key⟩ := by
  induction events with
  | nil =>
    intro sys m k htable hstore _ hcalls
    exact ⟨htable, hstore, hcalls⟩
  | cons e events ih =>
    intro sys m k htable hstore hanswers hcalls
    rw [run_cons, List.foldl_cons]
    cases e with
    | plusOne =>
      have hstep := step_plusOne rec key sys m k tpre tpost spre spost htable hstore hkeys hnames
      refine ih (sys.step key .plusOne) (m + 1) k ?_ ?_ ?_ ?_
      · rw [hstep]; exact htable
      · rw [hstep]
      · rw [hstep]
        simp only [hanswers, List.range_succ, List.map_append, List.map_cons, List.map_nil]
      · rw [hstep]
        simp only [hcalls, List.replicate_succ', List.append_assoc]
    | deliver i =>
      by_cases hi : i < m
      · have hanswer : sys.answers[i]? =
            some (key, Outcome.resolve (rec.advanced (i + 1)).toJson) := by
          rw [hanswers]
          simp [List.getElem?_map, List.getElem?_range hi]
        have hstep := step_deliver rec key sys i k tpre tpost htable hanswer hkeys
        have htrack : Event.track (m, k) (.deliver i) = (m, i + 1) := by
          simp [Event.track, hi]
        rw [htrack]
        refine ih (sys.step key (.deliver i)) m (i + 1) ?_ ?_ ?_ ?_
        · rw [hstep]
        · rw [hstep]; exact hstore
        · rw [hstep]; exact hanswers
        · rw [hstep]; exact hcalls
      · have hanswer : sys.answers[i]? = none := by
          rw [hanswers]
          simp [List.getElem?_map]
          omega
        have hstep : sys.step key (.deliver i) = sys := by
          unfold System.step
          simp only [hanswer]
        have htrack : Event.track (m, k) (.deliver i) = (m, k) := by
          simp [Event.track, hi]
        rw [htrack, hstep]
        exact ih sys m k htable hstore hanswers hcalls

theorem summary_ends_with_last (events : List Event) (i : Nat)
    (hi : i + 1 = (Event.summary (events ++ [.deliver i])).1) :
    (Event.summary (events ++ [.deliver i])).2 = (Event.summary (events ++ [.deliver i])).1 := by
  simp only [Event.summary, List.foldl_append, List.foldl_cons, List.foldl_nil] at hi ⊢
  by_cases h : i < (List.foldl Event.track (0, 0) events).1
  · simp only [Event.track, h, if_true] at hi ⊢
    exact hi
  · simp only [Event.track, h, if_false] at hi ⊢
    omega

theorem track_clicks (events : List Event) (m k : Nat) :
    (events.foldl Event.track (m, k)).1 = m + events.count .plusOne := by
  induction events generalizing m k with
  | nil => simp
  | cons e events ih =>
    cases e with
    | plusOne =>
      simp only [List.foldl_cons, Event.track, ih, List.count_cons_self]
      omega
    | deliver i =>
      have hne : (Event.deliver i == Event.plusOne) = false := by simp
      by_cases hi : i < m
      · simp only [List.foldl_cons, Event.track, hi, if_true, ih, List.count_cons, hne]
        simp
      · simp only [List.foldl_cons, Event.track, hi, if_false, ih, List.count_cons, hne]
        simp

/-- C7, as stated, fails for `n = 0`: with no `advance` call at all, a
bookmark that was stored with `has_new` false (as `insert` leaves it) still
has `has_new` false, in the store and on its row, whose id is empty. -/
theorem no_advance_keeps_has_new_false :
    (System.run 1 []
      ⟨{ State.init ["", "name"] with
          table := [⟨0, "", "", []⟩,
            (Bookmark.build_entry (Record.toBookmark ⟨"Bleach", "https://example.org/bleach", 12,
              false⟩) (Row.new 1)).1],
          nextKey := 2 },
        [⟨"Bleach", "https://example.org/bleach", 12, false⟩], []⟩).store.map Record.has_new =
      [false] ∧
    (System.run 1 []
      ⟨{ State.init ["", "name"] with
          table := [⟨0, "", "", []⟩,
            (Bookmark.build_entry (Record.toBookmark ⟨"Bleach", "https://example.org/bleach", 12,
              false⟩) (Row.new 1)).1],
          nextKey := 2 },
        [⟨"Bleach", "https://example.org/bleach", 12, false⟩], []⟩).page.table.map Row.id =
      ["", ""] := by
  decide

/-- Two `+1` clicks whose answers reach the page in reverse order: the
store holds episode 14, the row is left showing 13, the episode of the
answer delivered last. -/
theorem answers_in_reverse_order_show_older_episode :
    (System.run 1 [.plusOne, .plusOne, .deliver 1, .deliver 0]
      ⟨{ State.init ["", "name"] with
          table := [⟨0, "", "", []⟩,
            (Bookmark.build_entry (Record.toBookmark ⟨"Bleach", "https://example.org/bleach", 12,
              false⟩) (Row.new 1)).1],
          nextKey := 2 },
        [⟨"Bleach", "https://example.org/bleach", 12, false⟩], []⟩).store.map Record.episode =
      [14] ∧
    (System.run 1 [.plusOne, .plusOne, .deliver 1, .deliver 0]
      ⟨{ State.init ["", "name"] with
          table := [⟨0, "", "", []⟩,
            (Bookmark.build_entry (Record.toBookmark ⟨"Bleach", "https://example.org/bleach", 12,
              false⟩) (Row.new 1)).1],
          nextKey := 2 },
        [⟨"Bleach", "https://example.org/bleach", 12, false⟩], []⟩).page.table.map
        (fun r => (r.cells[2]?).map Cell.innerText) =
      [none, some (.num (.int 13))] := by
  decide

/-- C7 (amended): for any schedule of `+1` clicks on the bookmark's row and
deliveries of the backend's answers, with `n` clicks in it, each click
issues exactly one `advance` call and the stored episode is `e + n`; the
stored `has_new` is true for all `n ≥ 1` (with `n = 0` it is what it was).
The row shows the episode of the answer delivered last, `e + k` for the
answer to the `k`-th call (the double nearest to it, which is `e + k`
itself below `2 ^ 53`), with id `has_new` once an answer was delivered;
this is `e + n` whenever the schedule ends with the delivery of the answer
to the last call, as it does when the answers arrive in call order. -/
theorem advance_n_times (events : List Event) (rec : Record) (key : Nat) (s : State)
    (tpre tpost : List Row) (spre spost : List Record)
    (htable : s.table = tpre ++ (rec.toBookmark.build_entry (Row.new key)).1 :: tpost)
    (hkeys : ∀ x ∈ tpre ++ tpost, x.key ≠ key)
    (hnames : ∀ x ∈ spre, x.name ≠ rec.name) :
    ∃ row : Row,
      (Event.summary events).1 = events.count .plusOne ∧
      (System.run key events ⟨s, spre ++ rec :: spost, []⟩).store =
        spre ++ ⟨rec.name, rec.url, rec.episode + (Event.summary events).1,
          rec.has_new || decide (0 < (Event.summary events).1)⟩ :: spost ∧
      (System.run key events ⟨s, spre ++ rec :: spost, []⟩).page.calls =
        s.calls ++ List.replicate (Event.summary events).1
          ⟨"advance", .name (.str rec.name), .rerender key⟩ ∧
      (System.run key events ⟨s, spre ++ rec :: spost, []⟩).page.table =
        tpre ++ row :: tpost ∧
      row.key = key ∧
      (row.cells[1]?).map Cell.innerText = some (.str rec.name) ∧
      (row.cells[2]?).map Cell.innerText =
        some (.num (JSNum.ofInt (rec.episode + (Event.summary events).2))) ∧
      ((rec.episode + (Event.summary events).2).natAbs < 2 ^ 53 →
        (row.cells[2]?).map Cell.innerText =
          some (.num (.int (rec.episode + (Event.summary events).2)))) ∧
      row.id = (if rec.has_new || decide (0 < (Event.summary events).2) then "has_new"
        else "") ∧
      (∀ (events0 : List Event) (i : Nat), events = events0 ++ [.deliver i] →
        i + 1 = (Event.summary events).1 →
        (Event.summary events).2 = (Event.summary events).1 ∧ row.id = "has_new") := by
  have hrun := run_schedule rec key tpre tpost spre spost s.calls hkeys hnames events
    ⟨s, spre ++ rec :: spost, []⟩ 0 0 (by rw [advanced_zero]; exact htable)
    (by rw [advanced_zero]) (by simp) (by simp)
  obtain ⟨h1, h2, h3, h4, _⟩ := build_entry_shows (rec.advanced (Event.summary events).2)
    (Row.new key)
  have hclicks : (Event.summary events).1 = events.count .plusOne := by
    unfold Event.summary
    rw [track_clicks]
    simp
  refine ⟨((rec.advanced (Event.summary events).2).toBookmark.build_entry (Row.new key)).1,
    hclicks, hrun.2.1, hrun.2.2, hrun.1, h1, h2, h3, fun hsmall => ?_, h4, ?_⟩
  · exact h3.trans (congrArg (fun n => some (JSVal.num n)) (ofInt_exact _ hsmall))
  · intro events0 i hev hi
    have hlast : (Event.summary events).2 = (Event.summary events).1 := by
      rw [hev] at hi ⊢
      exact summary_ends_with_last events0 i hi
    have hpos : 0 < (Event.summary events).2 := by omega
    refine ⟨hlast, h4.trans ?_⟩
    simp [Record.advanced, hpos]

theorem advance_n_times_witness :
    ∃ row : Row,
      (System.run 1 [.plusOne, .plusOne, .deliver 0, .plusOne, .deliver 1, .deliver 2]
        ⟨{ State.init ["", "name"] with
            table := [⟨0, "", "", []⟩] ++
              (Bookmark.build_entry (Record.toBookmark ⟨"Bleach", "https://example.org/bleach",
                12, false⟩) (Row.new 1)).1 :: [],
            nextKey := 2 },
          [] ++ ⟨"Bleach", "https://example.org/bleach", 12, false⟩ :: [], []⟩).store =
        [⟨"Bleach", "https://example.org/bleach", 15, true⟩] ∧
      (row.cells[2]?).map Cell.innerText = some (.num (.int 15)) ∧ row.id = "has_new" :=
  match advance_n_times [.plusOne, .plusOne, .deliver 0, .plusOne, .deliver 1, .deliver 2]
    ⟨"Bleach", "https://example.org/bleach", 12, false⟩ 1
    { State.init ["", "name"] with
      table := [⟨0, "", "", []⟩] ++
        (Bookmark.build_entry (Record.toBookmark ⟨"Bleach", "https://example.org/bleach",
          12, false⟩) (Row.new 1)).1 :: [],
      nextKey := 2 }
    [⟨0, "", "", []⟩] [] [] [] rfl (by decide) (by decide) with
  | ⟨row, _, hstore, _, _, _, _, _, hexact, _, hlast⟩ =>
    ⟨row, hstore, hexact (by decide),
      (hlast [.plusOne, .plusOne, .deliver 0, .plusOne, .deliver 1] 2 rfl (by decide)).2⟩

/-! ## Episodes beyond `2 ^ 53` -/

set_option exponentiation.threshold 2000 in
theorem roundToDouble_example : roundToDouble 9007199254740993 = some 9007199254740992 := by
  have hlog : Nat.log2 9007199254740993 = 53 := by
    have h1 : Nat.log2 9007199254740993 < 54 := (Nat.log2_lt (by norm_num)).2 (by norm_num)
    have h2 : 53 ≤ Nat.log2 9007199254740993 := (Nat.le_log2 (by norm_num)).2 (by norm_num)
    omega
  unfold roundToDouble
  rw [if_neg (by norm_num)]
  simp only [hlog]
  norm_num

theorem ofInt_natCast (n v : Nat) (h : roundToDouble n = some v) :
    JSNum.ofInt (n : Int) = .int (v : Int) := by
  unfold JSNum.ofInt
  rw [Int.natAbs_ofNat, h]
  have : ¬ ((n : Int) < 0) := by omega
  simp [this]

/-- An episode beyond `2 ^ 53` reaches the row as the nearest double: a
record with episode 9007199254740993 is shown as 9007199254740992. -/
theorem large_episode_is_shown_rounded :
    ((Bookmark.build_entry
        (Record.toBookmark ⟨"a", "u", ((9007199254740993 : Nat) : Int), true⟩)
        (Row.new 1)).1.cells[2]?).map Cell.innerText =
      some (.num (.int ((9007199254740992 : Nat) : Int))) := by
  rw [(build_entry_shows ⟨"a", "u", ((9007199254740993 : Nat) : Int), true⟩ (Row.new 1)).2.2.1,
    ofInt_natCast _ _ roundToDouble_example]

end Webworm
